import Mathlib

/-!
Verification of the wz-code classification library.

The data model is embedded from `wz_code/models.py`. The registry facade,
hierarchy navigator and correspondence engine are not shipped in the sources
available here (only their tests are), so those operations are modelled from
the specification, as marked in the doc comment of each such definition.
-/

/-- Embeds `WZVersion` from `wz_code/models.py`: a str-valued enum with exactly
two members, `WZ_2008` (value "2008") and `WZ_2025` (value "2025"). -/
inductive WZVersion where
  | wz2008
  | wz2025
deriving DecidableEq

/-- The `.value` payload string of each enum member. -/
def WZVersion.value : WZVersion → String
  | .wz2008 => "2008"
  | .wz2025 => "2025"

/-- The members of the enum in Python iteration order (declaration order). -/
def WZVersion.members : List WZVersion := [.wz2008, .wz2025]

/-- Embeds `WZVersion.__str__`: returns the version string. -/
def WZVersion.str (v : WZVersion) : String := v.value

/-- Models Python `==` between a str-valued enum member and a plain string:
the enum inherits `str`, so it compares by its underlying value. -/
def WZVersion.pyEqStr (v : WZVersion) (s : String) : Bool := v.value == s

/-- Embeds `WZVersion.from_string` from `wz_code/models.py`: `cls(version)` is
the enum value lookup over the members; on failure the raised message is
`Invalid WZ version '{version}'. Valid versions: {valid_versions}` where
`valid_versions` renders as `['2008', '2025']`. -/
def WZVersion.from_string (version : String) : Except String WZVersion :=
  match WZVersion.members.find? (fun v => v.value == version) with
  | some v => .ok v
  | none =>
      .error ("Invalid WZ version '" ++ version ++ "'. Valid versions: ['2008', '2025']")

/-- Checks that `needle` occurs at the very start of `hay` (character lists). -/
def isSubAt : List Char → List Char → Bool
  | [], _ => true
  | _ :: _, [] => false
  | a :: as, b :: bs => a == b && isSubAt as bs

/-- Substring occurrence on character lists; models Python `needle in hay`. -/
def containsSub (needle : List Char) : List Char → Bool
  | [] => isSubAt needle []
  | a :: t => isSubAt needle (a :: t) || containsSub needle t

/-- `strContains hay needle` models the Python membership test `needle in hay`. -/
def strContains (hay needle : String) : Bool := containsSub needle.data hay.data

/-- Models Python `str.lower` on the ASCII fragment relevant to the data:
maps an upper-case ASCII letter to its lower-case form, fixes everything else. -/
def lowerChar (c : Char) : Char :=
  if 65 ≤ c.toNat ∧ c.toNat ≤ 90 then Char.ofNat (c.toNat + 32) else c

/-- Python `s.lower()` on strings, character by character. -/
def pyLower (s : String) : String := String.mk (s.data.map lowerChar)

/-- Modelled from the spec: one Entry of the per-edition Entry Store, with the
descriptive attributes `{code, title, level, parentCode?, childCodes?}` (§3, §6);
the store itself is not under src/, only `WZDataEntry` documents its shape. -/
structure Entry where
  code : String
  title : String
  level : Nat
  parentCode : Option String
  childCodes : List String
deriving DecidableEq

/-- Modelled from the spec: the Entry Store `lookup` operation — exact,
case-sensitive match of the code string (§4.1). -/
def storeLookup (store : List Entry) (code : String) : Option Entry :=
  store.find? (fun e => e.code == code)

/-- Embeds `WZCodeData` from `wz_code/models.py` / the spec's CodeView: the
public immutable projection `{code, title, level, version}` of an entry. -/
structure WZCode where
  code : String
  title : String
  level : Nat
  version : WZVersion
deriving DecidableEq

/-- Builds the public CodeView of an entry for the facade's edition. -/
def toView (v : WZVersion) (e : Entry) : WZCode :=
  ⟨e.code, e.title, e.level, v⟩

/-- Models Python `==` on CodeViews: modelled from the spec, two CodeViews are
equal iff `code` and `version` are both equal (§3). -/
def WZCode.pyEq (a b : WZCode) : Bool :=
  a.code == b.code && decide (a.version = b.version)

/-- Models Python `hash` on CodeViews: modelled from the spec, derived from the
pair `(code, version)` only (§3). -/
def WZCode.pyHash (a : WZCode) : UInt64 :=
  hash (a.code, WZVersion.value (a.version))

/-- Embeds the `Correspondence` record: immutable fields `{code, title,
is_partial, version}`; the flag is named `isPartialMatch` here. `version` names
the counterpart's edition, never the source's. -/
structure Correspondence where
  code : String
  title : String
  isPartialMatch : Bool
  version : WZVersion
deriving DecidableEq

/-- Modelled from the spec §6: one tuple of the underlying concordance listing,
`{sourceCode, targetCode, isPartial, titles}`, with the source side being an
edition-2025 code and the target side its edition-2008 counterpart. -/
structure ConcordRow where
  srcCode : String
  tgtCode : String
  isPartialMatch : Bool
  srcTitle : String
  tgtTitle : String
deriving DecidableEq

/-- Modelled from the spec: the forward correspondence table, materialized from
the concordance data at construction (§3); maps a source code to the ordered
sequence of its counterparts, tagged with the counterpart edition `tgtV`. -/
def forwardCorrs (data : List ConcordRow) (tgtV : WZVersion) (code : String) :
    List Correspondence :=
  (data.filter (fun r => r.srcCode == code)).map
    (fun r => ⟨r.tgtCode, r.tgtTitle, r.isPartialMatch, tgtV⟩)

/-- Modelled from the spec: the reverse correspondence table, materialized
independently from the same concordance data (§3). -/
def reverseCorrs (data : List ConcordRow) (srcV : WZVersion) (code : String) :
    List Correspondence :=
  (data.filter (fun r => r.tgtCode == code)).map
    (fun r => ⟨r.srcCode, r.srcTitle, r.isPartialMatch, srcV⟩)

/-- The other one of the two editions. -/
def otherEdition : WZVersion → WZVersion
  | .wz2008 => .wz2025
  | .wz2025 => .wz2008

/-- Modelled from the spec: the facade's `get_correspondences`, delegating to
the correspondence table of its own edition (§4.4); the 2025 facade reads the
forward table, the 2008 facade the reverse table, both built from `data`.
Absence (no recorded correspondence, or no such code at all) yields `[]`. -/
def get_correspondences (v : WZVersion) (data : List ConcordRow) (code : String) :
    List Correspondence :=
  match v with
  | .wz2025 => forwardCorrs data .wz2008 code
  | .wz2008 => reverseCorrs data .wz2025 code

/-- Modelled from the spec: facade construction (`WZ.__init__` is not under
src/); it validates the edition identifier through the enumerated version's
parsing factory and fails with that version error on anything else (§4.4). -/
def initWZ (version : String) : Except String WZVersion :=
  WZVersion.from_string version

/-- Modelled from the spec: the facade's `get` — a missing code fails with a
not-found error whose message names the code and the edition searched (§4.4). -/
def WZ.get (v : WZVersion) (store : List Entry) (code : String) : Except String WZCode :=
  match storeLookup store code with
  | some e => .ok (toView v e)
  | none => .error ("Code '" ++ code ++ "' not found in WZ " ++ WZVersion.value v)

/-- Modelled from the spec: the facade's `exists` — total, never raises. -/
def existsCode (store : List Entry) (code : String) : Bool :=
  (storeLookup store code).isSome

/-- The store's entries in lexicographic code order. -/
def sortEntries (store : List Entry) : List Entry :=
  store.mergeSort (fun a b => decide (a.code ≤ b.code))

/-- Modelled from the spec: `get_all_codes` — the full enumeration of code
strings in ascending lexicographic order (§4.1, §4.4). -/
def get_all_codes (store : List Entry) : List String :=
  (store.map Entry.code).mergeSort (fun a b => decide (a ≤ b))

/-- Modelled from the spec: `get_top_level_codes` — the level-1 entries only,
in lexicographic code order (§4.1, §4.4). -/
def get_top_level_codes (v : WZVersion) (store : List Entry) : List WZCode :=
  ((sortEntries store).filter (fun e => e.level == 1)).map (toView v)

/-- Modelled from the spec: `search_in_titles` — substring match against each
entry's title, case-insensitive by default (query and title lowered first),
raw comparison in case-sensitive mode; results in lexicographic code order,
total (never raises) (§4.4). -/
def search_in_titles (v : WZVersion) (store : List Entry) (query : String)
    (caseSensitive : Bool) : List WZCode :=
  ((sortEntries store).filter (fun e =>
    if caseSensitive then strContains e.title query
    else strContains (pyLower e.title) (pyLower query))).map (toView v)

/-- Modelled from the spec: the hierarchy navigator's `parentOf` — none iff
level 1; otherwise resolves the recorded parent code via the store (§4.2). -/
def parentOf (store : List Entry) (e : Entry) : Option Entry :=
  match e.parentCode with
  | none => none
  | some p => storeLookup store p

/-- The parent-chain walk of `ancestorsOf` with explicit fuel (the Python loop
walks until no parent remains; the validated store bounds the walk by the
entry's level). -/
def ancestorsFuel (store : List Entry) : Nat → Entry → List Entry
  | 0, _ => []
  | n + 1, e =>
      match parentOf store e with
      | none => []
      | some p => p :: ancestorsFuel store n p

/-- Modelled from the spec: `ancestorsOf` — repeatedly applies `parentOf`
starting from the immediate parent until none remains (§4.2). -/
def ancestorsOf (store : List Entry) (e : Entry) : List Entry :=
  ancestorsFuel store e.level e

/-- The facade-level ancestors of a CodeView: the entry ancestors projected
into CodeViews of the facade's edition. -/
def wzAncestors (v : WZVersion) (store : List Entry) (e : Entry) : List WZCode :=
  (ancestorsOf store e).map (toView v)

/-- The facade-level parent of a CodeView. -/
def wzParent (v : WZVersion) (store : List Entry) (e : Entry) : Option WZCode :=
  (parentOf store e).map (toView v)

/-- The Entry Store invariant validated at construction (§3, §4.1), as an
executable check: an entry has no parent code exactly when it is level 1, and
a recorded parent code resolves to a stored entry one level up. -/
def parentInvB (store : List Entry) : Bool :=
  store.all (fun e =>
    match e.parentCode with
    | none => e.level == 1
    | some p =>
        (e.level != 1) &&
        (match storeLookup store p with
         | some pe => pe.level + 1 == e.level
         | none => false))

/-- Modelled from the spec: the correspondence engine's `equivalentsOf` —
validates the target edition (version error on anything unrecognized), returns
`[]` for the facade's own edition, and otherwise resolves the code's
correspondences into CodeViews of the target edition, in table order (§4.3). -/
def equivalentsOf (selfV : WZVersion) (corrs : String → List Correspondence)
    (targetStore : List Entry) (code : String) (target : String) :
    Except String (List WZCode) :=
  match WZVersion.from_string target with
  | .error msg => .error msg
  | .ok tv =>
      if tv = selfV then .ok []
      else .ok ((corrs code).filterMap (fun c =>
        (storeLookup targetStore c.code).map (toView tv)))

/-- The fields of a `Correspondence` record. -/
inductive CorrField where
  | fieldCode
  | fieldTitle
  | fieldPartialFlag
  | fieldVersion
deriving DecidableEq

/-- A value one could try to assign to a `Correspondence` field. -/
inductive FieldValue where
  | strVal : String → FieldValue
  | boolVal : Bool → FieldValue
  | verVal : WZVersion → FieldValue
deriving DecidableEq

/-- Modelled from the spec: `Correspondence` is a frozen record — attribute
assignment raises an immutability violation and the record keeps its fields
(§3). The model returns the raised error together with the untouched record. -/
def trySetField (c : Correspondence) (f : CorrField) (v : FieldValue) :
    Except String Unit × Correspondence :=
  (.error "FrozenInstanceError: cannot assign to field", c)

/-- One real edition-2025 entry (from the test suite) used as a concrete input. -/
def entry0111 : Entry :=
  ⟨"01.11", "Anbau von Getreide (ohne Reis), Huelsenfruechten und Oelsaaten", 4,
    some "01.1", []⟩

/-- A concrete edition-2025 store: the subset of the bundled data exercised by
the test suite (titles as asserted there), satisfying the store invariants. -/
def demoStore2025 : List Entry :=
  [⟨"A", "Land- und Forstwirtschaft, Fischerei", 1, none, ["01", "02", "03"]⟩,
   ⟨"01", "Landwirtschaft, Jagd und damit verbundene Taetigkeiten", 2, some "A", ["01.1"]⟩,
   ⟨"01.1", "Anbau einjaehriger Pflanzen", 3, some "01", ["01.11", "01.13"]⟩,
   entry0111,
   ⟨"01.13", "Anbau von Gemuese und Melonen, Wurzeln und Knollen", 4, some "01.1",
     ["01.13.1"]⟩,
   ⟨"01.13.1", "Anbau von Gemuese und Melonen, Wurzeln und Knollen", 5, some "01.13", []⟩,
   ⟨"01.6", "Erbringung von landwirtschaftlichen Dienstleistungen", 3, some "01", []⟩]

/-- A concrete edition-2008 store with the codes the tests resolve against. -/
def demoStore2008 : List Entry :=
  [⟨"A", "Land- und Forstwirtschaft, Fischerei", 1, none, ["01"]⟩,
   ⟨"01", "Landwirtschaft, Jagd und damit verbundene Taetigkeiten", 2, some "A", ["01.1"]⟩,
   ⟨"01.1", "Anbau einjaehriger Pflanzen", 3, some "01", ["01.11", "01.13", "01.19"]⟩,
   ⟨"01.11", "Anbau von Getreide (ohne Reis), Huelsenfruechten und Oelsaaten", 4,
     some "01.1", ["01.11.0"]⟩,
   ⟨"01.11.0", "Anbau von Getreide (ohne Reis), Huelsenfruechten und Oelsaaten", 5,
     some "01.11", []⟩,
   ⟨"01.13", "Anbau von Gemuese und Melonen, Wurzeln und Knollen", 4, some "01.1",
     ["01.13.1", "01.13.2"]⟩,
   ⟨"01.13.1", "Anbau von Gemuese und Melonen", 5, some "01.13", []⟩,
   ⟨"01.13.2", "Anbau von Kartoffeln", 5, some "01.13", []⟩,
   ⟨"01.19", "Anbau von sonstigen einjaehrigen Pflanzen", 4, some "01.1", ["01.19.9"]⟩,
   ⟨"01.19.9", "Anbau von sonstigen einjaehrigen Pflanzen a.n.g.", 5, some "01.19", []⟩]

/-- A concrete slice of the concordance listing (source side edition 2025,
target side edition 2008), with the mixed full/partial rows the tests use. -/
def demoConcord : List ConcordRow :=
  [⟨"01.13.1", "01.13.1", false, "Anbau von Gemuese und Melonen, Wurzeln und Knollen",
    "Anbau von Gemuese und Melonen"⟩,
   ⟨"01.13.1", "01.13.2", true, "Anbau von Gemuese und Melonen, Wurzeln und Knollen",
    "Anbau von Kartoffeln"⟩,
   ⟨"01.19.1", "01.19.9", true, "Anbau von Blumen",
    "Anbau von sonstigen einjaehrigen Pflanzen a.n.g."⟩]

/-- Modelled from the spec: the bundled 2025 entry data is not under src/; per
§8 it holds 2030 entries, 22 of them level 1. The level-1 slice of a model
realizing those counts. -/
def topEntries2025 : List Entry :=
  (List.range 22).map (fun i => ⟨"T" ++ toString i, "Abschnitt " ++ toString i, 1, none, []⟩)

/-- The 2008 deeper entries of the modelled 2025 dataset (2030 - 22 entries). -/
def subEntries2025 : List Entry :=
  (List.range 2008).map
    (fun i => ⟨"x" ++ toString i, "Klasse " ++ toString i, 2, some "T0", []⟩)

/-- Modelled from the spec: the full 2025 dataset shape — 2030 entries, 22 of
them level 1 (§8). -/
def modelStore2025 : List Entry := topEntries2025 ++ subEntries2025

/-- Modelled from the spec: the level-1 slice of the 2008 dataset model (21
level-1 entries per §8). -/
def topEntries2008 : List Entry :=
  (List.range 21).map (fun i => ⟨"T" ++ toString i, "Abschnitt " ++ toString i, 1, none, []⟩)

/-- The 1814 deeper entries of the modelled 2008 dataset (1835 - 21). -/
def subEntries2008 : List Entry :=
  (List.range 1814).map
    (fun i => ⟨"x" ++ toString i, "Klasse " ++ toString i, 2, some "T0", []⟩)

/-- Modelled from the spec: the full 2008 dataset shape — 1835 entries, 21 of
them level 1 (§8). -/
def modelStore2008 : List Entry := topEntries2008 ++ subEntries2008

theorem containsSub_nil_needle (hay : List Char) : containsSub [] hay = true := by
  cases hay <;> simp [containsSub, isSubAt]

theorem isSubAt_self_append (n b : List Char) : isSubAt n (n ++ b) = true := by
  induction n with
  | nil => rfl
  | cons a as ih => simp [isSubAt, ih]

theorem containsSub_self_append (n b : List Char) : containsSub n (n ++ b) = true := by
  cases n with
  | nil => exact containsSub_nil_needle b
  | cons a as =>
      show containsSub (a :: as) (a :: (as ++ b)) = true
      rw [containsSub]
      have := isSubAt_self_append (a :: as) b
      simp only [List.cons_append] at this
      simp [this]

theorem containsSub_of_tail (n pre rest : List Char) (h : containsSub n rest = true) :
    containsSub n (pre ++ rest) = true := by
  induction pre with
  | nil => simpa using h
  | cons p ps ih =>
      show containsSub n (p :: (ps ++ rest)) = true
      rw [containsSub]
      simp [ih]

theorem isSubAt_append_right (n hay post : List Char) (h : isSubAt n hay = true) :
    isSubAt n (hay ++ post) = true := by
  induction n generalizing hay with
  | nil => rfl
  | cons a as ih =>
      cases hay with
      | nil => simp [isSubAt] at h
      | cons b bs =>
          simp only [isSubAt, Bool.and_eq_true] at h
          obtain ⟨hab, hrest⟩ := h
          show isSubAt (a :: as) (b :: (bs ++ post)) = true
          rw [isSubAt, hab, ih bs hrest]
          rfl

theorem containsSub_append_right (n rest post : List Char) (h : containsSub n rest = true) :
    containsSub n (rest ++ post) = true := by
  induction rest with
  | nil =>
      have : n = [] := by
        cases n with
        | nil => rfl
        | cons a as => simp [containsSub, isSubAt] at h
      rw [this]
      exact containsSub_nil_needle post
  | cons a t ih =>
      simp only [containsSub, Bool.or_eq_true] at h
      rcases h with h1 | h2
      · show containsSub n (a :: (t ++ post)) = true
        rw [containsSub]
        have := isSubAt_append_right n (a :: t) post h1
        simp only [List.cons_append] at this
        simp [this]
      · show containsSub n (a :: (t ++ post)) = true
        rw [containsSub]
        simp [ih h2]

theorem strContains_middle (a mid b : String) : strContains (a ++ mid ++ b) mid = true := by
  unfold strContains
  rw [String.data_append, String.data_append, List.append_assoc]
  exact containsSub_of_tail _ _ _ (containsSub_self_append _ _)

theorem strContains_right (a b t : String) (h : strContains b t = true) :
    strContains (a ++ b) t = true := by
  unfold strContains at h ⊢
  rw [String.data_append]
  exact containsSub_of_tail _ _ _ h

theorem strContains_left (a b t : String) (h : strContains a t = true) :
    strContains (a ++ b) t = true := by
  unfold strContains at h ⊢
  rw [String.data_append]
  exact containsSub_append_right _ _ _ h

theorem strContains_self (s : String) : strContains s s = true := by
  unfold strContains
  have := containsSub_self_append s.data []
  simpa using this

theorem lowerChar_idem (c : Char) : lowerChar (lowerChar c) = lowerChar c := by
  by_cases h : 65 ≤ c.toNat ∧ c.toNat ≤ 90
  · have hc : lowerChar c = Char.ofNat (c.toNat + 32) := by simp [lowerChar, h]
    rw [hc]
    obtain ⟨h1, h2⟩ := h
    have h3 : 97 ≤ c.toNat + 32 := by omega
    have h4 : c.toNat + 32 ≤ 122 := by omega
    generalize c.toNat + 32 = m at h3 h4 ⊢
    interval_cases m <;> decide
  · have hc : lowerChar c = c := by simp [lowerChar, h]
    rw [hc, hc]

theorem pyLower_idem (s : String) : pyLower (pyLower s) = pyLower s := by
  unfold pyLower
  refine congrArg String.mk ?_
  show (s.data.map lowerChar).map lowerChar = s.data.map lowerChar
  rw [List.map_map]
  exact List.map_congr_left (fun a _ => lowerChar_idem a)

theorem sortEntries_sorted (store : List Entry) :
    List.Pairwise (fun a b : Entry => a.code ≤ b.code) (sortEntries store) := by
  have h := @List.sorted_mergeSort Entry (fun a b => decide (a.code ≤ b.code))
    (fun a b c hab hbc => by
      simp only [decide_eq_true_eq] at *
      exact le_trans hab hbc)
    (fun a b => by
      simp only [Bool.or_eq_true, decide_eq_true_eq]
      exact le_total a.code b.code)
    store
  exact h.imp (fun hab => by simpa using hab)

theorem get_all_codes_sorted (store : List Entry) :
    List.Pairwise (fun a b : String => a ≤ b) (get_all_codes store) := by
  have h := @List.sorted_mergeSort String (fun a b => decide (a ≤ b))
    (fun a b c hab hbc => by
      simp only [decide_eq_true_eq] at *
      exact le_trans hab hbc)
    (fun a b => by
      simp only [Bool.or_eq_true, decide_eq_true_eq]
      exact le_total a b)
    (store.map Entry.code)
  exact h.imp (fun hab => by simpa using hab)

theorem get_all_codes_length (store : List Entry) :
    (get_all_codes store).length = store.length := by
  unfold get_all_codes
  rw [List.length_mergeSort, List.length_map]

theorem get_top_level_length (v : WZVersion) (store : List Entry) :
    (get_top_level_codes v store).length
      = (store.filter (fun e => e.level == 1)).length := by
  unfold get_top_level_codes sortEntries
  rw [List.length_map]
  exact ((List.mergeSort_perm store _).filter _).length_eq

theorem mem_top_level_level_one {v : WZVersion} {store : List Entry} {cv : WZCode}
    (h : cv ∈ get_top_level_codes v store) : cv.level = 1 := by
  unfold get_top_level_codes at h
  rcases List.mem_map.1 h with ⟨e, he, rfl⟩
  rcases List.mem_filter.1 he with ⟨_, hlev⟩
  have : e.level = 1 := by simpa using hlev
  simpa [toView] using this

theorem inv_parent_none {store : List Entry} (hinv : parentInvB store = true)
    {e : Entry} (he : e ∈ store) (hp : e.parentCode = none) : e.level = 1 := by
  have h := List.all_eq_true.1 hinv e he
  rw [hp] at h
  simpa using h

theorem inv_parent_some {store : List Entry} (hinv : parentInvB store = true)
    {e : Entry} (he : e ∈ store) {p : String} (hp : e.parentCode = some p) :
    e.level ≠ 1 ∧ ∃ pe, storeLookup store p = some pe ∧ pe.level + 1 = e.level
      ∧ pe ∈ store := by
  have h := List.all_eq_true.1 hinv e he
  rw [hp] at h
  simp only [Bool.and_eq_true, bne_iff_ne] at h
  obtain ⟨hne, h2⟩ := h
  refine ⟨hne, ?_⟩
  cases hlk : storeLookup store p with
  | none => rw [hlk] at h2; simp at h2
  | some pe =>
      rw [hlk] at h2
      have hlev : pe.level + 1 = e.level := by simpa using h2
      have hmem : pe ∈ store := by
        unfold storeLookup at hlk
        exact List.mem_of_find?_eq_some hlk
      exact ⟨pe, rfl, hlev, hmem⟩

theorem inv_level_one_no_parent {store : List Entry} (hinv : parentInvB store = true)
    {e : Entry} (he : e ∈ store) (h1 : e.level = 1) : e.parentCode = none := by
  cases hp : e.parentCode with
  | none => rfl
  | some p => exact absurd h1 (inv_parent_some hinv he hp).1

theorem level_pos_of_inv {store : List Entry} (hinv : parentInvB store = true)
    {e : Entry} (he : e ∈ store) : 1 ≤ e.level := by
  cases hp : e.parentCode with
  | none => rw [inv_parent_none hinv he hp]
  | some p =>
      obtain ⟨_, pe, _, hlev, _⟩ := inv_parent_some hinv he hp
      omega

theorem parentOf_none_iff {store : List Entry} (hinv : parentInvB store = true)
    {e : Entry} (he : e ∈ store) : parentOf store e = none ↔ e.level = 1 := by
  constructor
  · intro h
    cases hp : e.parentCode with
    | none => exact inv_parent_none hinv he hp
    | some p =>
        obtain ⟨_, pe, hlk, _, _⟩ := inv_parent_some hinv he hp
        simp [parentOf, hp, hlk] at h
  · intro h1
    rw [parentOf, inv_level_one_no_parent hinv he h1]

theorem getLast?_cons_of_ne {α : Type} (a : α) (l : List α) (h : l ≠ []) :
    (a :: l).getLast? = l.getLast? := by
  cases l with
  | nil => exact absurd rfl h
  | cons b t => exact List.getLast?_cons_cons

theorem ancestorsFuel_spec (store : List Entry) (hinv : parentInvB store = true) :
    ∀ (n : Nat) (e : Entry), e ∈ store → e.level = n →
      (ancestorsFuel store n e).length = n - 1 ∧
      (1 < n → ∃ last, (ancestorsFuel store n e).getLast? = some last
        ∧ Entry.level last = 1) := by
  intro n
  induction n with
  | zero => intro e _ _; exact ⟨rfl, by omega⟩
  | succ n ih =>
      intro e he hl
      cases hp : e.parentCode with
      | none =>
          have h1 : e.level = 1 := inv_parent_none hinv he hp
          have hn : n = 0 := by omega
          subst hn
          have hpo : parentOf store e = none := by rw [parentOf, hp]
          constructor
          · simp [ancestorsFuel, hpo]
          · intro h; omega
      | some p =>
          obtain ⟨_, pe, hlk, hlev, hpe⟩ := inv_parent_some hinv he hp
          have hpo : parentOf store e = some pe := by
            rw [parentOf, hp]
            exact hlk
          have hplev : pe.level = n := by omega
          obtain ⟨ihlen, ihlast⟩ := ih pe hpe hplev
          have hfe : ancestorsFuel store (n + 1) e = pe :: ancestorsFuel store n pe := by
            rw [ancestorsFuel, hpo]
          have hnpos : 1 ≤ n := by
            have := level_pos_of_inv hinv hpe; omega
          constructor
          · rw [hfe, List.length_cons, ihlen]
            clear ihlast
            omega
          · intro _
            by_cases hgt : 1 < n
            · obtain ⟨last, hlq, hll⟩ := ihlast hgt
              refine ⟨last, ?_, hll⟩
              rw [hfe]
              have hne : ancestorsFuel store n pe ≠ [] := by
                intro hemp
                rw [hemp] at ihlen
                simp at ihlen
                omega
              rw [getLast?_cons_of_ne pe _ hne]
              exact hlq
            · have hn1 : n = 1 := by omega
              subst hn1
              have hpl1 : pe.level = 1 := hplev
              have hpc : pe.parentCode = none := inv_level_one_no_parent hinv hpe hpl1
              have hpo2 : parentOf store pe = none := by rw [parentOf, hpc]
              have : ancestorsFuel store 1 pe = [] := by rw [ancestorsFuel, hpo2]
              rw [hfe, this]
              exact ⟨pe, rfl, hpl1⟩

theorem filterMap_resolve (tv : WZVersion) (tstore : List Entry) :
    ∀ l : List Correspondence,
      (∀ c ∈ l, (storeLookup tstore (Correspondence.code c)).isSome = true) →
      ((l.filterMap (fun c => (storeLookup tstore c.code).map (toView tv))).map
          WZCode.code = l.map Correspondence.code)
      ∧ (∀ w ∈ l.filterMap (fun c => (storeLookup tstore c.code).map (toView tv)),
          w.version = tv) := by
  intro l
  induction l with
  | nil => intro _; exact ⟨rfl, by simp⟩
  | cons c t ih =>
      intro h
      have hc := h c (by simp)
      obtain ⟨e, he⟩ := Option.isSome_iff_exists.1 hc
      have hecode : e.code = c.code := by
        unfold storeLookup at he
        have := List.find?_some he
        simpa using this
      obtain ⟨ih1, ih2⟩ := ih (fun x hx => h x (by simp [hx]))
      constructor
      · simp only [List.filterMap_cons, he, Option.map_some', List.map_cons]
        rw [ih1]
        simp [toView, hecode]
      · intro w hw
        simp only [List.filterMap_cons, he, Option.map_some'] at hw
        rcases List.mem_cons.1 hw with hw | hw
        · rw [hw]; rfl
        · exact ih2 w hw

/-- C10: `WZVersion.from_string` and string conversion form a round trip: for
both recognized strings, parsing succeeds and converting back yields the same
string; for every member, parsing its string form yields the member back; and
as a str-valued enum each member compares equal to its plain version string. -/
theorem wzversion_roundtrip :
    (WZVersion.from_string "2008" = .ok .wz2008
      ∧ WZVersion.str .wz2008 = "2008"
      ∧ WZVersion.from_string "2025" = .ok .wz2025
      ∧ WZVersion.str .wz2025 = "2025")
    ∧ (∀ v : WZVersion, WZVersion.from_string (WZVersion.str v) = .ok v)
    ∧ (∀ v : WZVersion, WZVersion.pyEqStr v (WZVersion.value v) = true) := by
  refine ⟨⟨rfl, rfl, rfl, rfl⟩, ?_, ?_⟩ <;> intro v <;> cases v <;> rfl

/-- C9: Correspondence records are immutable after creation: assigning any
value to any field fails with an immutability violation, and the record keeps
every one of its fields unchanged. -/
theorem correspondence_frozen (c : Correspondence) (f : CorrField) (v : FieldValue) :
    (∃ msg, (trySetField c f v).1 = Except.error msg)
    ∧ (trySetField c f v).2 = c
    ∧ ((trySetField c f v).2).code = c.code
    ∧ ((trySetField c f v).2).title = c.title
    ∧ Correspondence.isPartialMatch ((trySetField c f v).2) = c.isPartialMatch
    ∧ ((trySetField c f v).2).version = c.version :=
  ⟨⟨"FrozenInstanceError: cannot assign to field", rfl⟩, rfl, rfl, rfl, rfl, rfl⟩

/-- C7: CodeView equality and hashing are determined exactly by the pair
(code, version): `pyEq` holds iff code and version both agree, equal views are
hash-equal (so they are interchangeable as set or mapping keys), two views from
independent `get` calls with the same code and edition are equal and hash-equal,
and views differing in code are unequal. -/
theorem codeview_eq_hash :
    (∀ a b : WZCode, WZCode.pyEq a b = true ↔ (a.code = b.code ∧ a.version = b.version))
    ∧ (∀ a b : WZCode, WZCode.pyEq a b = true → WZCode.pyHash a = WZCode.pyHash b)
    ∧ (∀ (v : WZVersion) (store : List Entry) (c : String) (x y : WZCode),
        WZ.get v store c = .ok x → WZ.get v store c = .ok y →
        WZCode.pyEq x y = true ∧ WZCode.pyHash x = WZCode.pyHash y)
    ∧ (∀ x y : WZCode, x.code ≠ y.code → WZCode.pyEq x y = false) := by
  have hiff : ∀ a b : WZCode,
      WZCode.pyEq a b = true ↔ (a.code = b.code ∧ a.version = b.version) := by
    intro a b
    simp [WZCode.pyEq]
  have hhash : ∀ a b : WZCode,
      WZCode.pyEq a b = true → WZCode.pyHash a = WZCode.pyHash b := by
    intro a b hab
    obtain ⟨h1, h2⟩ := (hiff a b).1 hab
    unfold WZCode.pyHash
    rw [h1, h2]
  refine ⟨hiff, hhash, ?_, ?_⟩
  · intro v store c x y hx hy
    rw [hx] at hy
    have hxy : x = y := by injection hy
    subst hxy
    have heq : WZCode.pyEq x x = true := (hiff x x).2 ⟨rfl, rfl⟩
    exact ⟨heq, hhash x x heq⟩
  · intro x y hne
    have : ¬(WZCode.pyEq x y = true) := fun h => hne ((hiff x y).1 h).1
    simpa using this

/-- C1: any edition identifier other than "2008" and "2025" is rejected with a
version error naming the offending value and both valid values — by the parse
factory, at facade construction, and as `findEquivalent`'s target edition —
while the two recognized strings construct successfully. -/
theorem version_error_on_invalid (s : String) (h1 : s ≠ "2008") (h2 : s ≠ "2025") :
    (∃ msg, WZVersion.from_string s = .error msg ∧ strContains msg s = true
      ∧ strContains msg "2008" = true ∧ strContains msg "2025" = true)
    ∧ (∃ msg, initWZ s = .error msg ∧ strContains msg s = true
      ∧ strContains msg "2008" = true ∧ strContains msg "2025" = true)
    ∧ (∀ (selfV : WZVersion) (corrs : String → List Correspondence)
        (tstore : List Entry) (code : String),
        ∃ msg, equivalentsOf selfV corrs tstore code s = .error msg
          ∧ strContains msg s = true ∧ strContains msg "2008" = true
          ∧ strContains msg "2025" = true)
    ∧ initWZ "2008" = .ok .wz2008 ∧ initWZ "2025" = .ok .wz2025 := by
  have e1 : (("2008" : String) == s) = false :=
    beq_eq_false_iff_ne.2 (fun h => h1 h.symm)
  have e2 : (("2025" : String) == s) = false :=
    beq_eq_false_iff_ne.2 (fun h => h2 h.symm)
  have hfind : WZVersion.members.find? (fun v => v.value == s) = none := by
    simp [WZVersion.members, List.find?, WZVersion.value, e1, e2]
  have herr : WZVersion.from_string s
      = .error ("Invalid WZ version '" ++ s ++ "'. Valid versions: ['2008', '2025']") := by
    unfold WZVersion.from_string
    rw [hfind]
  have hcs : strContains ("Invalid WZ version '" ++ s
      ++ "'. Valid versions: ['2008', '2025']") s = true :=
    strContains_middle "Invalid WZ version '" s "'. Valid versions: ['2008', '2025']"
  have hc8 : strContains ("Invalid WZ version '" ++ s
      ++ "'. Valid versions: ['2008', '2025']") "2008" = true :=
    strContains_right ("Invalid WZ version '" ++ s)
      "'. Valid versions: ['2008', '2025']" "2008" (by rfl)
  have hc5 : strContains ("Invalid WZ version '" ++ s
      ++ "'. Valid versions: ['2008', '2025']") "2025" = true :=
    strContains_right ("Invalid WZ version '" ++ s)
      "'. Valid versions: ['2008', '2025']" "2025" (by rfl)
  refine ⟨⟨_, herr, hcs, hc8, hc5⟩, ⟨_, herr, hcs, hc8, hc5⟩, ?_, rfl, rfl⟩
  intro selfV corrs tstore code
  refine ⟨_, ?_, hcs, hc8, hc5⟩
  unfold equivalentsOf
  rw [herr]

/-- C1 witness at the concrete identifier "2020" from the test suite. -/
theorem version_error_on_invalid_witness :
    (("2020" : String) ≠ "2008" ∧ ("2020" : String) ≠ "2025")
    ∧ ((∃ msg, WZVersion.from_string "2020" = .error msg
        ∧ strContains msg "2020" = true
        ∧ strContains msg "2008" = true ∧ strContains msg "2025" = true)
      ∧ (∃ msg, initWZ "2020" = .error msg ∧ strContains msg "2020" = true
        ∧ strContains msg "2008" = true ∧ strContains msg "2025" = true)
      ∧ (∀ (selfV : WZVersion) (corrs : String → List Correspondence)
          (tstore : List Entry) (code : String),
          ∃ msg, equivalentsOf selfV corrs tstore code "2020" = .error msg
            ∧ strContains msg "2020" = true ∧ strContains msg "2008" = true
            ∧ strContains msg "2025" = true)
      ∧ initWZ "2008" = .ok .wz2008 ∧ initWZ "2025" = .ok .wz2025) :=
  ⟨⟨by decide, by decide⟩, version_error_on_invalid "2020" (by decide) (by decide)⟩

/-- C2: bidirectional consistency of the correspondence tables: whenever `r` is
among one edition's correspondences for `c`, the code `c` appears among the
codes of the other edition's correspondences for `r.code` (both tables being
materialized from the same concordance data). -/
theorem correspondences_bidirectional (data : List ConcordRow) (v : WZVersion)
    (c : String) (r : Correspondence) (hr : r ∈ get_correspondences v data c) :
    c ∈ (get_correspondences (otherEdition v) data (Correspondence.code r)).map
      Correspondence.code := by
  cases v with
  | wz2025 =>
      simp only [get_correspondences, otherEdition] at hr ⊢
      unfold forwardCorrs at hr
      rcases List.mem_map.1 hr with ⟨row, hrow, heq⟩
      rcases List.mem_filter.1 hrow with ⟨hmem, hsrc⟩
      have hsrc' : row.srcCode = c := by simpa using hsrc
      have hcode : Correspondence.code r = row.tgtCode := by rw [← heq]
      unfold reverseCorrs
      rw [List.map_map]
      refine List.mem_map.2 ⟨row, List.mem_filter.2 ⟨hmem, by simp [hcode]⟩, ?_⟩
      simpa using hsrc'
  | wz2008 =>
      simp only [get_correspondences, otherEdition] at hr ⊢
      unfold reverseCorrs at hr
      rcases List.mem_map.1 hr with ⟨row, hrow, heq⟩
      rcases List.mem_filter.1 hrow with ⟨hmem, htgt⟩
      have htgt' : row.tgtCode = c := by simpa using htgt
      have hcode : Correspondence.code r = row.srcCode := by rw [← heq]
      unfold forwardCorrs
      rw [List.map_map]
      refine List.mem_map.2 ⟨row, List.mem_filter.2 ⟨hmem, by simp [hcode]⟩, ?_⟩
      simpa using htgt'

/-- C2 witness at the concrete code "01.13.1" from the test suite. -/
theorem correspondences_bidirectional_witness :
    (⟨"01.13.1", "Anbau von Gemuese und Melonen", false, .wz2008⟩ : Correspondence)
      ∈ get_correspondences .wz2025 demoConcord "01.13.1"
    ∧ "01.13.1" ∈ (get_correspondences (otherEdition .wz2025) demoConcord
        (Correspondence.code
          (⟨"01.13.1", "Anbau von Gemuese und Melonen", false, .wz2008⟩ :
            Correspondence))).map Correspondence.code :=
  ⟨by decide, correspondences_bidirectional demoConcord .wz2025 "01.13.1"
    ⟨"01.13.1", "Anbau von Gemuese und Melonen", false, .wz2008⟩ (by decide)⟩

theorem equivalentsOf_ok (selfV tv : WZVersion) (corrs : String → List Correspondence)
    (tstore : List Entry) (code : String) (target : String)
    (h : WZVersion.from_string target = .ok tv) :
    equivalentsOf selfV corrs tstore code target
      = if tv = selfV then .ok []
        else .ok ((corrs code).filterMap (fun c =>
          (storeLookup tstore c.code).map (toView tv))) := by
  unfold equivalentsOf
  rw [h]

theorem mem_search_iff (v : WZVersion) (store : List Entry) (q : String) (cs : Bool)
    (a : WZCode) :
    a ∈ search_in_titles v store q cs
      ↔ a ∈ (store.filter (fun e =>
          if cs then strContains e.title q
          else strContains (pyLower e.title) (pyLower q))).map (toView v) := by
  unfold search_in_titles sortEntries
  exact (((List.mergeSort_perm store _).filter _).map (toView v)).mem_iff

/-- C3: for every valid code in a store satisfying the construction invariant,
the ancestors sequence has length level - 1, its last element (when any) is a
level-1 entry, and the parent is none exactly for level-1 entries. -/
theorem hierarchy_ancestors_parent (v : WZVersion) (store : List Entry) (e : Entry)
    (hinv : parentInvB store = true) (he : e ∈ store) :
    (wzAncestors v store e).length = e.level - 1
    ∧ (1 < e.level → ∃ last, (wzAncestors v store e).getLast? = some last
        ∧ WZCode.level last = 1)
    ∧ (wzParent v store e = none ↔ e.level = 1) := by
  obtain ⟨hlen, hlast⟩ := ancestorsFuel_spec store hinv e.level e he rfl
  refine ⟨?_, ?_, ?_⟩
  · unfold wzAncestors ancestorsOf
    rw [List.length_map]
    exact hlen
  · intro h
    obtain ⟨last, hlq, hll⟩ := hlast h
    refine ⟨toView v last, ?_, hll⟩
    unfold wzAncestors ancestorsOf
    rw [List.getLast?_map, hlq]
    rfl
  · unfold wzParent
    rw [Option.map_eq_none']
    exact parentOf_none_iff hinv he

/-- C3 witness at the concrete entry "01.11" of the demo 2025 store. -/
theorem hierarchy_ancestors_parent_witness :
    (parentInvB demoStore2025 = true ∧ entry0111 ∈ demoStore2025)
    ∧ ((wzAncestors .wz2025 demoStore2025 entry0111).length = entry0111.level - 1
      ∧ (1 < entry0111.level →
          ∃ last, (wzAncestors .wz2025 demoStore2025 entry0111).getLast? = some last
            ∧ WZCode.level last = 1)
      ∧ (wzParent .wz2025 demoStore2025 entry0111 = none ↔ entry0111.level = 1)) :=
  ⟨⟨by decide, by decide⟩,
    hierarchy_ancestors_parent .wz2025 demoStore2025 entry0111 (by decide) (by decide)⟩

/-- C4: the full enumeration is sorted ascending with 2030 entries for edition
2025 and 1835 for edition 2008, and the top-level enumeration holds only
level-1 entries, 22 of them for 2025 and 21 for 2008 (dataset shape modelled
from the spec). -/
theorem enumeration_counts :
    (get_all_codes modelStore2025).length = 2030
    ∧ List.Pairwise (fun a b : String => a ≤ b) (get_all_codes modelStore2025)
    ∧ (get_all_codes modelStore2008).length = 1835
    ∧ List.Pairwise (fun a b : String => a ≤ b) (get_all_codes modelStore2008)
    ∧ (get_top_level_codes .wz2025 modelStore2025).length = 22
    ∧ (∀ cv ∈ get_top_level_codes .wz2025 modelStore2025, WZCode.level cv = 1)
    ∧ (get_top_level_codes .wz2008 modelStore2008).length = 21
    ∧ (∀ cv ∈ get_top_level_codes .wz2008 modelStore2008, WZCode.level cv = 1) := by
  have htop25 : topEntries2025.filter (fun e => e.level == 1) = topEntries2025 :=
    List.filter_eq_self.2 (fun a ha => by
      unfold topEntries2025 at ha
      rcases List.mem_map.1 ha with ⟨i, _, rfl⟩
      simp)
  have hsub25 : subEntries2025.filter (fun e => e.level == 1) = [] :=
    List.filter_eq_nil_iff.2 (fun a ha => by
      unfold subEntries2025 at ha
      rcases List.mem_map.1 ha with ⟨i, _, rfl⟩
      simp)
  have htop08 : topEntries2008.filter (fun e => e.level == 1) = topEntries2008 :=
    List.filter_eq_self.2 (fun a ha => by
      unfold topEntries2008 at ha
      rcases List.mem_map.1 ha with ⟨i, _, rfl⟩
      simp)
  have hsub08 : subEntries2008.filter (fun e => e.level == 1) = [] :=
    List.filter_eq_nil_iff.2 (fun a ha => by
      unfold subEntries2008 at ha
      rcases List.mem_map.1 ha with ⟨i, _, rfl⟩
      simp)
  refine ⟨?_, get_all_codes_sorted _, ?_, get_all_codes_sorted _, ?_,
    fun cv h => mem_top_level_level_one h, ?_, fun cv h => mem_top_level_level_one h⟩
  · rw [get_all_codes_length]
    simp [modelStore2025, topEntries2025, subEntries2025]
  · rw [get_all_codes_length]
    simp [modelStore2008, topEntries2008, subEntries2008]
  · rw [get_top_level_length]
    show ((topEntries2025 ++ subEntries2025).filter (fun e => e.level == 1)).length = 22
    rw [List.filter_append, htop25, hsub25]
    simp [topEntries2025]
  · rw [get_top_level_length]
    show ((topEntries2008 ++ subEntries2008).filter (fun e => e.level == 1)).length = 21
    rw [List.filter_append, htop08, hsub08]
    simp [topEntries2008]

/-- C5: a code-not-found error is raised only by `get`, with a message naming
the missing code and the edition searched, and `exists` answers false there;
while whenever no correspondence is recorded for a code — an existing code
without recorded correspondence just as a code that does not exist at all —
the correspondence lookup answers the empty sequence and `findEquivalent` to
the other edition an empty success rather than an error. -/
theorem not_found_only_get (v : WZVersion) (store : List Entry) (data : List ConcordRow)
    (code : String)
    (hnr : data.all (fun r => r.srcCode != code && r.tgtCode != code) = true) :
    (storeLookup store code = none →
      (∃ msg, WZ.get v store code = .error msg ∧ strContains msg code = true
        ∧ strContains msg (WZVersion.value v) = true)
      ∧ existsCode store code = false)
    ∧ get_correspondences v data code = []
    ∧ equivalentsOf v (get_correspondences v data) store code
        (WZVersion.value (otherEdition v)) = .ok [] := by
  have hall := List.all_eq_true.1 hnr
  have hcorr : get_correspondences v data code = [] := by
    cases v with
    | wz2025 =>
        show forwardCorrs data .wz2008 code = []
        unfold forwardCorrs
        rw [List.filter_eq_nil_iff.2, List.map_nil]
        intro r hrm
        have hr := hall r hrm
        simp only [Bool.and_eq_true, bne_iff_ne] at hr
        simp [hr.1]
    | wz2008 =>
        show reverseCorrs data .wz2025 code = []
        unfold reverseCorrs
        rw [List.filter_eq_nil_iff.2, List.map_nil]
        intro r hrm
        have hr := hall r hrm
        simp only [Bool.and_eq_true, bne_iff_ne] at hr
        simp [hr.2]
  refine ⟨?_, hcorr, ?_⟩
  · intro habs
    have hmsg1 : strContains ("Code '" ++ code ++ "' not found in WZ "
        ++ WZVersion.value v) code = true :=
      strContains_left ("Code '" ++ code ++ "' not found in WZ ") (WZVersion.value v)
        code (strContains_middle "Code '" code "' not found in WZ ")
    have hmsg2 : strContains ("Code '" ++ code ++ "' not found in WZ "
        ++ WZVersion.value v) (WZVersion.value v) = true :=
      strContains_right ("Code '" ++ code ++ "' not found in WZ ") (WZVersion.value v)
        (WZVersion.value v) (strContains_self (WZVersion.value v))
    have hget : WZ.get v store code
        = .error ("Code '" ++ code ++ "' not found in WZ " ++ WZVersion.value v) := by
      unfold WZ.get
      rw [habs]
    exact ⟨⟨_, hget, hmsg1, hmsg2⟩, by simp [existsCode, habs]⟩
  cases v with
  | wz2025 =>
      rw [equivalentsOf_ok .wz2025 .wz2008 (get_correspondences .wz2025 data) store
          code (WZVersion.value (otherEdition .wz2025)) rfl, if_neg (by decide), hcorr]
      rfl
  | wz2008 =>
      rw [equivalentsOf_ok .wz2008 .wz2025 (get_correspondences .wz2008 data) store
          code (WZVersion.value (otherEdition .wz2008)) rfl, if_neg (by decide), hcorr]
      rfl

/-- C5 witness at the concrete codes "INVALID" (absent from the store) and "A"
(existing in the store but without recorded correspondence), both from the
test suite. -/
theorem not_found_only_get_witness :
    (demoConcord.all (fun r => r.srcCode != "INVALID" && r.tgtCode != "INVALID") = true
      ∧ demoConcord.all (fun r => r.srcCode != "A" && r.tgtCode != "A") = true
      ∧ storeLookup demoStore2025 "INVALID" = none
      ∧ existsCode demoStore2025 "A" = true)
    ∧ ((storeLookup demoStore2025 "INVALID" = none →
        (∃ msg, WZ.get .wz2025 demoStore2025 "INVALID" = .error msg
          ∧ strContains msg "INVALID" = true
          ∧ strContains msg (WZVersion.value .wz2025) = true)
        ∧ existsCode demoStore2025 "INVALID" = false)
      ∧ get_correspondences .wz2025 demoConcord "INVALID" = []
      ∧ equivalentsOf .wz2025 (get_correspondences .wz2025 demoConcord) demoStore2025
          "INVALID" (WZVersion.value (otherEdition .wz2025)) = .ok [])
    ∧ get_correspondences .wz2025 demoConcord "A" = [] :=
  ⟨⟨by decide, by decide, by decide, by decide⟩,
    not_found_only_get .wz2025 demoStore2025 demoConcord "INVALID" (by decide),
    (not_found_only_get .wz2025 demoStore2025 demoConcord "A" (by decide)).2.1⟩

/-- C6: `findEquivalent` answers the empty sequence for the facade's own
edition; for the other edition it resolves the code's correspondences into
CodeViews of the target edition, preserving the concordance order and carrying
the target version on every returned view. -/
theorem find_equivalent_resolution (selfV tv : WZVersion)
    (corrs : String → List Correspondence) (tstore : List Entry) (code : String)
    (hne : tv ≠ selfV)
    (hres : ∀ c ∈ corrs code,
      (storeLookup tstore (Correspondence.code c)).isSome = true) :
    equivalentsOf selfV corrs tstore code (WZVersion.value selfV) = .ok []
    ∧ ∃ views, equivalentsOf selfV corrs tstore code (WZVersion.value tv) = .ok views
        ∧ views.map WZCode.code = (corrs code).map Correspondence.code
        ∧ (∀ w ∈ views, WZCode.version w = tv) := by
  have hself : WZVersion.from_string (WZVersion.value selfV) = .ok selfV := by
    cases selfV <;> rfl
  have htv : WZVersion.from_string (WZVersion.value tv) = .ok tv := by
    cases tv <;> rfl
  constructor
  · rw [equivalentsOf_ok selfV selfV corrs tstore code _ hself, if_pos rfl]
  · obtain ⟨h1, h2⟩ := filterMap_resolve tv tstore (corrs code) hres
    refine ⟨_, ?_, h1, h2⟩
    rw [equivalentsOf_ok selfV tv corrs tstore code _ htv, if_neg hne]

/-- C6 witness: edition 2025, code "01.13.1", target edition 2008. -/
theorem find_equivalent_resolution_witness :
    ((.wz2008 : WZVersion) ≠ .wz2025
      ∧ (∀ c ∈ get_correspondences .wz2025 demoConcord "01.13.1",
          (storeLookup demoStore2008 (Correspondence.code c)).isSome = true))
    ∧ (equivalentsOf .wz2025 (get_correspondences .wz2025 demoConcord) demoStore2008
        "01.13.1" (WZVersion.value .wz2025) = .ok []
      ∧ ∃ views, equivalentsOf .wz2025 (get_correspondences .wz2025 demoConcord)
            demoStore2008 "01.13.1" (WZVersion.value .wz2008) = .ok views
          ∧ views.map WZCode.code
              = (get_correspondences .wz2025 demoConcord "01.13.1").map
                  Correspondence.code
          ∧ (∀ w ∈ views, WZCode.version w = .wz2008)) :=
  ⟨⟨by decide, by decide⟩,
    find_equivalent_resolution .wz2025 .wz2008
      (get_correspondences .wz2025 demoConcord) demoStore2008 "01.13.1"
      (by decide) (by decide)⟩

/-- C8: the default case-insensitive search treats a query and its lowercased
form identically (both sides are lowered before comparison); case-sensitive
search compares raw strings and on the demo data the queries "LAND" and "land"
yield different result sets; and results always follow the store's
lexicographic code order. -/
theorem search_case_sensitivity :
    (∀ (v : WZVersion) (store : List Entry) (q : String),
        search_in_titles v store q false = search_in_titles v store (pyLower q) false)
    ∧ search_in_titles .wz2025 demoStore2025 "LAND" true
        ≠ search_in_titles .wz2025 demoStore2025 "land" true
    ∧ (∀ (v : WZVersion) (store : List Entry) (q : String) (cs : Bool),
        List.Pairwise (fun a b : WZCode => WZCode.code a ≤ WZCode.code b)
          (search_in_titles v store q cs)) := by
  refine ⟨?_, ?_, ?_⟩
  · intro v store q
    simp [search_in_titles, pyLower_idem]
  · intro heq
    have h1 : toView .wz2025 ⟨"01.6",
        "Erbringung von landwirtschaftlichen Dienstleistungen", 3, some "01", []⟩
        ∈ search_in_titles .wz2025 demoStore2025 "land" true :=
      (mem_search_iff .wz2025 demoStore2025 "land" true _).2 (by decide)
    have h2 : toView .wz2025 ⟨"01.6",
        "Erbringung von landwirtschaftlichen Dienstleistungen", 3, some "01", []⟩
        ∉ search_in_titles .wz2025 demoStore2025 "LAND" true := fun hm =>
      absurd ((mem_search_iff .wz2025 demoStore2025 "LAND" true _).1 hm) (by decide)
    rw [heq] at h2
    exact h2 h1
  · intro v store q cs
    unfold search_in_titles
    refine List.pairwise_map.2 ?_
    exact (sortEntries_sorted store).filter _
